import Mathlib

/-!
Shallow embedding of the Stockfish HTTP analysis server (`src/server.js`):
the skill-tier table, position-complexity heuristic, request clamping,
engine-pool acquisition, the streaming protocol decoder of `getBestMove`,
and the `/api/bestmove` request handler.

Numbers are modelled with `Int`/`Nat`, exact fractional constants with `ℚ`.
`Math.random()` draws are passed in as explicit rational parameters.
JavaScript regular-expression matching over single protocol lines is
modelled as matching over the list of space-separated tokens of the line.
-/

namespace StockfishAPI

/-- `MAX_DEPTH` (server.js line 16). -/
def maxDepthLimit : Int := 35

/-- `maxTimeLimit` (server.js line 11, default 30000). -/
def maxTimeLimitMs : Int := 30000

/-- `defaultDepth` (server.js line 9, default 30). -/
def defaultDepthVal : Int := 30

/-- `defaultMultiPv` (server.js line 10, default 1). -/
def defaultMultiPvVal : Int := 1

/-- One entry of `HUMAN_SIMULATION.skillLevels` (server.js lines 23-69).
The float `errorRate` is modelled exactly in `ℚ`. -/
structure SkillConfig where
  minDepth : Int
  maxDepth : Int
  skillLevel : Int
  errorRate : ℚ
  minTime : Int
  maxTime : Int
deriving DecidableEq

/-- `HUMAN_SIMULATION.skillLevels.beginner` (server.js lines 25-32). -/
def beginnerConfig : SkillConfig := ⟨8, 12, 8, 35/100, 800, 2000⟩

/-- `HUMAN_SIMULATION.skillLevels.intermediate` (server.js lines 34-41). -/
def intermediateConfig : SkillConfig := ⟨15, 20, 14, 15/100, 1500, 4000⟩

/-- `HUMAN_SIMULATION.skillLevels.advanced` (server.js lines 43-50). -/
def advancedConfig : SkillConfig := ⟨20, 25, 20, 5/100, 2000, 5000⟩

/-- `HUMAN_SIMULATION.skillLevels.expert` (server.js lines 52-59). -/
def expertConfig : SkillConfig := ⟨25, 30, 25, 1/100, 3000, 6000⟩

/-- `HUMAN_SIMULATION.skillLevels.master` (server.js lines 61-68). -/
def masterConfig : SkillConfig := ⟨30, 35, 30, 0, 3500, 7000⟩

/-- `HUMAN_SIMULATION.getConfigForSkill` (server.js lines 72-84). -/
def getConfigForSkill (skillLevel : Int) : SkillConfig :=
  if skillLevel ≤ 8 then beginnerConfig
  else if skillLevel ≤ 15 then intermediateConfig
  else if skillLevel ≤ 22 then advancedConfig
  else if skillLevel ≤ 28 then expertConfig
  else masterConfig

/-- `HUMAN_SIMULATION.shouldMakeError` (server.js lines 87-90); the
`Math.random()` draw is the explicit parameter `rnd`. -/
def shouldMakeError (skillLevel : Int) (rnd : ℚ) : Bool :=
  decide (rnd < (getConfigForSkill skillLevel).errorRate)

/-- `HUMAN_SIMULATION.getThinkingTime` (server.js lines 93-105); the
`Math.random()` draw is the explicit parameter `rnd`. -/
def getThinkingTime (skillLevel : Int) (positionComplexity : ℚ) (rnd : ℚ) : Int :=
  let config := getConfigForSkill skillLevel
  let baseTime : ℚ := (config.minTime : ℚ)
  let maxVariation : ℚ := (config.maxTime : ℚ) - (config.minTime : ℚ)
  let complexityFactor : ℚ := 7/10 + positionComplexity * (6/10)
  ⌊(baseTime + rnd * maxVariation) * complexityFactor⌋

/-! ### JavaScript string primitives

`String.prototype.split(sep)` with a single-character separator, `trim`,
and `parseInt`, modelled over `List Char`. -/

/-- JS `split` with a one-character separator: always returns at least one
(possibly empty) group, keeps interior empty groups. -/
def splitOnChar (sep : Char) : List Char → List (List Char)
  | [] => [[]]
  | c :: rest =>
    match splitOnChar sep rest with
    | [] => [[]]
    | g :: gs => if c = sep then [] :: g :: gs else (c :: g) :: gs

/-- JS `String.prototype.trim`: strip whitespace from both ends. -/
def trimWs (l : List Char) : List Char :=
  ((l.dropWhile Char.isWhitespace).reverse.dropWhile Char.isWhitespace).reverse

/-- Numeric value of a run of decimal digits (JS `parseInt` on a digit run). -/
def digitsToNat (l : List Char) : Nat :=
  l.foldl (fun n c => n * 10 + (c.toNat - 48)) 0

/-- JS `parseInt` on a token drawn from the character class `[-\d]+`:
an optional leading minus followed by the maximal digit run; `none` models
`NaN` (no digit after the optional sign). -/
def jsParseInt (v : List Char) : Option Int :=
  match v with
  | '-' :: rest =>
    let ds := rest.takeWhile Char.isDigit
    if ds = [] then none else some (-(digitsToNat ds : Int))
  | _ =>
    let ds := v.takeWhile Char.isDigit
    if ds = [] then none else some (digitsToNat ds : Int)

/-! ### Position complexity (server.js lines 187-208)

The `try` body can throw on string input: `' '.repeat(parseInt(match))`
raises `RangeError` when a digit run asks for more characters than the
engine's maximum string length, and the `catch` then returns 0.5.  The
digit expansion is therefore guarded by an explicit length cap: the
expansion succeeds exactly when the expanded placement field fits under
the cap (each individual repeat count is bounded by the expanded length,
so no finer-grained check is needed). -/

/-- The maximum string length of the 64-bit V8 engine (`2^29 - 24`), the
runtime the Dockerfile deploys the server on (`node:18-alpine`).  Any
compliant engine imposes such a cap no larger than `2^53 - 1`. -/
def stringLengthCap : Nat := 2 ^ 29 - 24

/-- `fen.split(' ')[0]`: the board-placement field. -/
def boardField (fen : String) : List Char :=
  (splitOnChar ' ' fen.data).headD []

/-- `.replace(/\d+/g, match => ' '.repeat(parseInt(match)))`: each maximal
digit run becomes that many spaces. `run` accumulates the current digit run. -/
def expandDigitsAux (run : List Char) : List Char → List Char
  | [] => List.replicate (digitsToNat run) ' '
  | c :: rest =>
    if c.isDigit then expandDigitsAux (run ++ [c]) rest
    else List.replicate (digitsToNat run) ' ' ++ c :: expandDigitsAux [] rest

/-- Digit-run expansion starting with an empty pending run. -/
def expandDigits (l : List Char) : List Char := expandDigitsAux [] l

/-- `pieces` (server.js line 191): digit runs expanded to spaces, then all
`/` removed. -/
def piecesOf (fen : String) : List Char :=
  (expandDigits (boardField fen)).filter (fun c => c ≠ '/')

/-- `pieceCount` (server.js line 194): `pieces.trim().length`. Interior
spaces produced by the digit expansion survive `trim` and are counted. -/
def pieceCountOf (fen : String) : Nat := (trimWs (piecesOf fen)).length

/-- `uniquePieceCount` (server.js lines 197-198): the size of the set of
characters of the untrimmed `pieces` string (the space character counts
whenever the expansion produced one). -/
def uniquePieceCountOf (fen : String) : Nat := (piecesOf fen).dedup.length

/-- `estimatePositionComplexity` (server.js lines 187-208) on a runtime
whose maximum string length is `cap`, with the float arithmetic carried
out exactly in `ℚ`: when the gap-expanded placement field fits under the
cap the `try` body completes and yields the weighted formula; otherwise
`' '.repeat` throws `RangeError` and the `catch` (line 206) returns 0.5. -/
def estimateComplexityWithCap (cap : Nat) (fen : String) : ℚ :=
  if (expandDigits (boardField fen)).length ≤ cap then
    min 1 ((pieceCountOf fen : ℚ) / 32 * (7/10) + (uniquePieceCountOf fen : ℚ) / 12 * (3/10))
  else 1/2

/-- `estimatePositionComplexity` as deployed: the cap is V8's maximum
string length. -/
def estimatePositionComplexity (fen : String) : ℚ :=
  estimateComplexityWithCap stringLengthCap fen

/-- Occupied squares of the board-placement field: its piece letters. -/
def specOccupiedSquares (fen : String) : Nat :=
  ((boardField fen).filter Char.isAlpha).length

/-- Distinct piece symbols appearing in the board-placement field. -/
def specDistinctPieces (fen : String) : Nat :=
  ((boardField fen).filter Char.isAlpha).dedup.length

/-- Modelled from the spec: `estimateComplexity` as the spec sentence for C8
reads it — the proportion of occupied squares (piece letters of the
board-placement field) weighted 0.7 plus the proportion of distinct piece
symbols (of 12 possible) weighted 0.3, capped at 1. -/
def specComplexity (fen : String) : ℚ :=
  min 1 ((specOccupiedSquares fen : ℚ) / 32 * (7/10) + (specDistinctPieces fen : ℚ) / 12 * (3/10))

/-! ### Request clamping (server.js lines 237-254) -/

/-- `actualDepth` (server.js line 248):
`Math.min(Math.max(humanConfig.minDepth, parseInt(depth)), humanConfig.maxDepth)`. -/
def actualDepthOf (skillLevel depth : Int) : Int :=
  min (max (getConfigForSkill skillLevel).minDepth depth) (getConfigForSkill skillLevel).maxDepth

/-- `actualMultiPv` (server.js line 249):
`Math.min(Math.max(3, parseInt(multiPv)), 5)`. -/
def actualMultiPvOf (multiPv : Int) : Int := min (max 3 multiPv) 5

/-- `actualTimeLimit` (server.js line 254):
`timeLimit ? Math.min(parseInt(timeLimit), maxTimeLimit) : thinkingTime`.
`none` models an absent `timeLimit`; JS treats a supplied `0` as falsy. -/
def actualTimeLimitOf (timeLimit : Option Int) (thinkingTime : Int) : Int :=
  match timeLimit with
  | some t => if t ≠ 0 then min t maxTimeLimitMs else thinkingTime
  | none => thinkingTime

/-! ### Streaming protocol decoder (`getBestMove`, server.js lines 328-412)

The two regular expressions of `dataHandler` match inside single lines
(no pattern can span a newline), so they are modelled as matchers over
the space-separated tokens of one line.  Each arriving chunk is matched
on its own: the code keeps no partial-line buffer. -/

/-- One parsed `info … multipv …` line (server.js lines 357-366).  The
float display field `readable` is omitted: it is a formatting of
`score.value` never read back by the server.  `scoreValue` is `none` when
JS `parseInt` yields `NaN`. -/
structure AnalysisEntry where
  depth : Nat
  multipv : Nat
  scoreType : String
  scoreValue : Option Int
  pv : List String
deriving DecidableEq

/-- The `bestmove <move> [ponder <move>]` payload (server.js lines 381-384). -/
structure BestMove where
  move : String
  ponder : Option String
deriving DecidableEq

/-- JS `\w` character class. -/
def isWordChar (c : Char) : Bool := c.isAlpha || c.isDigit || c = '_'

/-- Maximal `\w*` character run at the front of a token. -/
def takeWordChars (t : List Char) : List Char := t.takeWhile isWordChar

/-- A nonempty all-digit token (`\d+`). -/
def isDigitsTk (t : List Char) : Bool := !t.isEmpty && t.all Char.isDigit

/-- A nonempty token of the class `[-\d]+`. -/
def isScoreTk (t : List Char) : Bool := !t.isEmpty && t.all (fun c => c.isDigit || c = '-')

/-- The capture of `.*?pv (.+)` followed by `pv.trim().split(' ')`
(server.js lines 348, 355): rejoin the tokens after the first `pv`, trim
the ends, split again on single spaces. -/
def jsTrimSplit (tks : List (List Char)) : List (List Char) :=
  splitOnChar ' ' (trimWs (List.intercalate [' '] tks))

/-- Locate the first `pv` token and apply `trim().split(' ')` to the rest
of the line after it; `none` when the `pv (.+)` tail of the pattern cannot
match (no `pv` token, or nothing but an empty capture after it). -/
def pvPart : List (List Char) → Option (List (List Char))
  | [] => none
  | t :: rest =>
    if t = "pv".data then
      match rest with
      | [] => none
      | [r] => if r = [] then none else some [r]
      | _ => some (jsTrimSplit rest)
    else pvPart rest

/-- Token-level model of the info regex (server.js line 348):
`info depth (\d+) seldepth \d+ multipv (\d+) score (cp|mate) ([-\d]+).*?pv (.+)`.
On a failed match at the head the search continues at the next token, the
way the regex engine advances its start position. -/
def parseInfoTokens : List (List Char) → Option AnalysisEntry
  | t1 :: t2 :: d :: t3 :: s :: t4 :: p :: t5 :: k :: v :: rest =>
    if t1 = "info".data ∧ t2 = "depth".data ∧ isDigitsTk d ∧
        t3 = "seldepth".data ∧ isDigitsTk s ∧ t4 = "multipv".data ∧ isDigitsTk p ∧
        t5 = "score".data ∧ (k = "cp".data ∨ k = "mate".data) ∧ isScoreTk v then
      match pvPart rest with
      | some moves =>
        some ⟨digitsToNat d, digitsToNat p, String.mk k, jsParseInt v,
              moves.map String.mk⟩
      | none => parseInfoTokens (t2 :: d :: t3 :: s :: t4 :: p :: t5 :: k :: v :: rest)
    else parseInfoTokens (t2 :: d :: t3 :: s :: t4 :: p :: t5 :: k :: v :: rest)
  | _ :: rest => parseInfoTokens rest
  | [] => none

/-- Apply the info matcher to one line of a chunk. -/
def parseInfoLine (line : List Char) : Option AnalysisEntry :=
  parseInfoTokens (splitOnChar ' ' line)

/-- Token-level model of `bestmove (\w+)( ponder (\w+))?`
(server.js line 379). -/
def parseBestmoveTokens : List (List Char) → Option BestMove
  | [] => none
  | t :: rest =>
    if t = "bestmove".data then
      match rest with
      | [] => none
      | mv :: rest2 =>
        let m := takeWordChars mv
        if m = [] then parseBestmoveTokens rest
        else if m = mv then
          match rest2 with
          | p1 :: p2 :: _ =>
            if p1 = "ponder".data then
              let q := takeWordChars p2
              some ⟨String.mk m, if q = [] then none else some (String.mk q)⟩
            else some ⟨String.mk m, none⟩
          | _ => some ⟨String.mk m, none⟩
        else some ⟨String.mk m, none⟩
    else parseBestmoveTokens rest

/-- Apply the bestmove matcher to one line of a chunk. -/
def parseBestmoveLine (line : List Char) : Option BestMove :=
  parseBestmoveTokens (splitOnChar ' ' line)

/-- `analysis.findIndex` + in-place update, else `push`
(server.js lines 369-374): replace the first entry with the same
`multipv` index, otherwise append at the end. -/
def upsertEntry : List AnalysisEntry → AnalysisEntry → List AnalysisEntry
  | [], e => [e]
  | a :: rest, e =>
    if a.multipv = e.multipv then e :: rest else a :: upsertEntry rest e

/-- The comparator `(a, b) => a.multipv - b.multipv` (server.js line 387)
as the ordering it sorts by. -/
def byMpv : AnalysisEntry → AnalysisEntry → Prop :=
  fun a b => a.multipv ≤ b.multipv

instance : DecidableRel byMpv := fun a b => Nat.decLe a.multipv b.multipv

instance : IsTotal AnalysisEntry byMpv := ⟨fun a b => Nat.le_total a.multipv b.multipv⟩

instance : IsTrans AnalysisEntry byMpv := ⟨fun _ _ _ h h2 => Nat.le_trans h h2⟩

/-- `analysis.sort((a, b) => a.multipv - b.multipv)` (server.js line 387). -/
def sortByMpv (l : List AnalysisEntry) : List AnalysisEntry :=
  List.insertionSort byMpv l

/-- The value `getBestMove` resolves with (server.js lines 392-396). -/
structure FinalResult where
  bestMove : BestMove
  analysis : List AnalysisEntry
  depth : Int
deriving DecidableEq

/-- The closure state of `dataHandler`: the pending `analysis` table and,
once a `bestmove` line has been seen, the resolved result (after which
the listener is removed and further chunks are ignored). -/
structure DecodeState where
  analysis : List AnalysisEntry
  result : Option FinalResult
deriving DecidableEq

/-- The lines of one chunk (`\n`-separated; neither regex spans a newline). -/
def chunkLines (chunk : String) : List (List Char) := splitOnChar '\n' chunk.data

/-- Fold the info matcher over the lines of a chunk in order, updating the
table (the `multipvMatches.forEach` of server.js lines 350-375). -/
def collectInfo (acc : List AnalysisEntry) : List (List Char) → List AnalysisEntry
  | [] => acc
  | line :: rest =>
    collectInfo
      (match parseInfoLine line with
       | some e => upsertEntry acc e
       | none => acc)
      rest

/-- `analysis.length > 0 ? analysis[0].depth : depth` (server.js line 395),
evaluated on the already-sorted table. -/
def depthFromSorted (reqDepth : Int) (l : List AnalysisEntry) : Int :=
  match l.head? with
  | some e => (e.depth : Int)
  | none => reqDepth

/-- One `data` event of `dataHandler` (server.js lines 343-398): all info
matches of the chunk update the table, then the first bestmove match (if
any) sorts the table and resolves with it; `reqDepth` is the fallback for
`analysis.length > 0 ? analysis[0].depth : depth`. -/
def processChunk (reqDepth : Int) (st : DecodeState) (chunk : String) : DecodeState :=
  match st.result with
  | some _ => st
  | none =>
    let lines := chunkLines chunk
    let pending := collectInfo st.analysis lines
    match lines.findSome? parseBestmoveLine with
    | some bm =>
      let sorted := sortByMpv pending
      { analysis := sorted
        result := some
          { bestMove := bm
            analysis := sorted
            depth := depthFromSorted reqDepth sorted } }
    | none => { analysis := pending, result := none }

/-- The decoding of a whole sequence of `data` events. -/
def decode (reqDepth : Int) (chunks : List String) : DecodeState :=
  chunks.foldl (processChunk reqDepth) ⟨[], none⟩

/-! ### Engine pool (server.js lines 112-113, 262-280, 299)

Only the state the pool logic reads and writes is modelled: the `busy`
flag of each instance and the rotating `currentEngineIndex` cursor. -/

/-- The pool's mutable state: one `busy` flag per instance plus the
rotating cursor `currentEngineIndex`. -/
structure PoolState where
  busy : List Bool
  cursor : Nat
deriving DecidableEq

/-- The scan loop of server.js lines 263-271 over a list of candidate
offsets: the first offset whose slot is not busy wins.  A missing slot
reads as busy (never happens for in-range indices). -/
def scanOffsets (busy : List Bool) (base : Nat) : List Nat → Option Nat
  | [] => none
  | i :: rest =>
    if busy.getD ((base + i) % busy.length) true then scanOffsets busy base rest
    else some ((base + i) % busy.length)

/-- The index selected by the availability scan (server.js lines 263-271):
offsets `0, …, length-1` from the cursor, wrapping around. -/
def firstFreeIdx (busy : List Bool) (base : Nat) : Option Nat :=
  scanOffsets busy base (List.range busy.length)

/-- Acquisition (server.js lines 262-280): take the first free instance
from the rotating cursor and advance the cursor past it; if none is free,
take the instance at the cursor itself (oversubscription fallback) and
advance the cursor.  In both cases line 280 then sets `busy = true`. -/
def acquire (st : PoolState) : Nat × PoolState :=
  match firstFreeIdx st.busy st.cursor with
  | some idx => (idx, ⟨st.busy.set idx true, (idx + 1) % st.busy.length⟩)
  | none => (st.cursor, ⟨st.busy.set st.cursor true, (st.cursor + 1) % st.busy.length⟩)

/-! ### Request handler (`app.post('/api/bestmove')`, server.js lines 235-325) -/

/-- The JSON request body; `none` models an absent field
(server.js line 237 destructures with defaults). -/
structure Request where
  fen : Option String := none
  depth : Option Int := none
  multiPv : Option Int := none
  timeLimit : Option Int := none
  skillLevel : Option Int := none
deriving DecidableEq

/-- `depth = defaultDepth` destructuring default. -/
def reqDepthOf (r : Request) : Int := r.depth.getD defaultDepthVal

/-- `multiPv = defaultMultiPv` destructuring default. -/
def reqMultiPvOf (r : Request) : Int := r.multiPv.getD defaultMultiPvVal

/-- `skillLevel = 20` destructuring default. -/
def reqSkillOf (r : Request) : Int := r.skillLevel.getD 20

/-- JS `!fen` (server.js line 240): true for an absent or empty string. -/
def fenFalsy (r : Request) : Bool :=
  match r.fen with
  | none => true
  | some s => s = ""

/-- `setoption name Skill Level value …` write (server.js line 286). -/
def skillCmd (skillLevel : Int) : String :=
  "setoption name Skill Level value " ++ toString (getConfigForSkill skillLevel).skillLevel ++ "\n"

/-- `setoption name UCI_LimitStrength value …` write (server.js line 287):
`true` exactly when `skillLevel < 30`. -/
def limitStrengthCmd (skillLevel : Int) : String :=
  "setoption name UCI_LimitStrength value " ++ (if skillLevel < 30 then "true" else "false") ++ "\n"

/-- The analysis commands `getBestMove` writes (server.js lines 403-410):
position, MultiPV count, then `go` with `movetime` appended when the time
limit is truthy. -/
def encodeAnalysisRequest (fen : String) (depth multiPv timeLimit : Int) : List String :=
  ["position fen " ++ fen ++ "\n",
   "setoption name MultiPV value " ++ toString multiPv ++ "\n",
   if timeLimit ≠ 0 then
     "go depth " ++ toString depth ++ " movetime " ++ toString timeLimit ++ "\n"
   else
     "go depth " ++ toString depth ++ "\n"]

/-- Everything one dispatched request writes before awaiting the terminal
event: skill tuning (server.js lines 286-287) then the analysis commands. -/
def dispatchCommands (skillLevel : Int) (fen : String) (depth multiPv timeLimit : Int) : List String :=
  skillCmd skillLevel :: limitStrengthCmd skillLevel :: encodeAnalysisRequest fen depth multiPv timeLimit

/-- The per-instance startup handshake (server.js lines 125-134) with the
default environment (4 threads, 1024 MB hash, MultiPV 1). -/
def handshakeCommands : List String :=
  ["uci\n",
   "setoption name Threads value 4\n",
   "setoption name Hash value 1024\n",
   "setoption name UCI_LimitStrength value false\n",
   "setoption name Skill Level value 20\n",
   "setoption name Use NNUE value true\n",
   "setoption name MultiPV value 1\n",
   "setoption name Ponder value false\n",
   "ucinewgame\n",
   "isready\n"]

/-- `selectSuboptimalMove` (server.js lines 211-232); the `Math.random()`
draw is the explicit parameter `rnd`.  `Math.floor(20 / skillLevel)` is
float division: infinite for `skillLevel = 0` (the min then keeps the
alternative count), floor division otherwise. -/
def selectSuboptimalMove (bestMove : BestMove) (analysis : List AnalysisEntry)
    (skillLevel : Int) (rnd : ℚ) : BestMove :=
  if analysis.length ≤ 1 then bestMove
  else
    let alternativeMoves := analysis.tail
    let bound : Nat :=
      if skillLevel = 0 then alternativeMoves.length
      else min alternativeMoves.length (max 2 (Int.fdiv 20 skillLevel)).toNat
    let randomIndex : Nat := (⌊rnd * (bound : ℚ)⌋).toNat
    match alternativeMoves.get? randomIndex with
    | some a =>
      if a.pv ≠ [] then
        ⟨a.pv.headD "",
         match a.pv.get? 1 with
         | some m => if m = "" then none else some m
         | none => none⟩
      else bestMove
    | none => bestMove

/-- `humanSimulation` response block (server.js lines 313-318). -/
structure HumanSimulation where
  skillLevel : Int
  thinkingTime : Int
  positionComplexity : ℚ
  errorRate : ℚ
deriving DecidableEq

/-- The JSON response of a successful dispatch (server.js lines 306-320). -/
structure ApiResponse where
  bestMove : BestMove
  analysis : List AnalysisEntry
  depth : Int
  isHumanError : Bool
  humanSimulation : HumanSimulation
deriving DecidableEq

/-- Outcome of one handled request: 400 validation rejection, a request
that never resolves (engine never emits `bestmove` — the documented
liveness hazard), or a JSON response. -/
inductive HandlerStatus where
  | badRequest : HandlerStatus
  | hung : HandlerStatus
  | ok : ApiResponse → HandlerStatus
deriving DecidableEq

/-- Observable effect of one request: its outcome, the pool state left
behind, and every command written to the acquired engine's stdin. -/
structure HandlerTrace where
  status : HandlerStatus
  pool : PoolState
  writes : List String
deriving DecidableEq

/-- The `/api/bestmove` handler (server.js lines 235-325).  The engine's
stdout is the explicit chunk sequence `chunks`; the three `Math.random()`
draws (thinking time, error decision, degraded pick) are explicit.  The
`await isReady()` suspension is timing, not state, and is not modelled. -/
def handleBestmove (req : Request) (st : PoolState)
    (rndThink rndErr rndPick : ℚ) (chunks : List String) : HandlerTrace :=
  if fenFalsy req then ⟨.badRequest, st, []⟩
  else
    let fen := req.fen.getD ""
    let skillLevel := reqSkillOf req
    let humanConfig := getConfigForSkill skillLevel
    let aDepth := actualDepthOf skillLevel (reqDepthOf req)
    let aMultiPv := actualMultiPvOf (reqMultiPvOf req)
    let positionComplexity := estimatePositionComplexity fen
    let thinkingTime := getThinkingTime skillLevel positionComplexity rndThink
    let aTime := actualTimeLimitOf req.timeLimit thinkingTime
    let acq := acquire st
    let cmds := dispatchCommands skillLevel fen aDepth aMultiPv aTime
    match (decode aDepth chunks).result with
    | none => ⟨.hung, acq.2, cmds⟩
    | some r =>
      let released : PoolState := ⟨acq.2.busy.set acq.1 false, acq.2.cursor⟩
      let writes := cmds ++ ["ucinewgame\n", "isready\n"]
      let degrade := shouldMakeError skillLevel rndErr && decide (r.analysis.length > 1)
      let bm := if degrade then selectSuboptimalMove r.bestMove r.analysis skillLevel rndPick
                else r.bestMove
      ⟨.ok
        { bestMove := bm
          analysis := r.analysis
          depth := r.depth
          isHumanError := degrade
          humanSimulation :=
            { skillLevel := skillLevel
              thinkingTime := aTime
              positionComplexity := positionComplexity
              errorRate := humanConfig.errorRate } },
       released, writes⟩

/-! ### Proof-support definitions -/

/-- The `multipv` keys of the analysis table, in order. -/
def keysOf (l : List AnalysisEntry) : List Nat := l.map (fun e => e.multipv)

/-- The table invariant of §3 of the spec: no two entries share a
`multipv` index. -/
def keysNodup (l : List AnalysisEntry) : Prop := (keysOf l).Nodup

/-- A predicate holding of the payload of an `Option`, vacuously of `none`. -/
def optionAllP {α : Type} (o : Option α) (P : α → Prop) : Prop :=
  match o with
  | none => True
  | some a => P a

instance {α : Type} (o : Option α) (P : α → Prop) [DecidablePred P] :
    Decidable (optionAllP o P) :=
  match o with
  | none => isTrue trivial
  | some a => inferInstanceAs (Decidable (P a))

/-- Every line of every chunk that matches the info pattern parses to an
entry satisfying `P`.  With `P := fun _ => False` this says the transcript
has no info lines at all. -/
def infoLinesSatisfy (chunks : List String) (P : AnalysisEntry → Prop) : Prop :=
  ∀ chunk ∈ chunks, ∀ line ∈ chunkLines chunk, optionAllP (parseInfoLine line) P

instance (chunks : List String) (P : AnalysisEntry → Prop) [DecidablePred P] :
    Decidable (infoLinesSatisfy chunks P) := by
  unfold infoLinesSatisfy; infer_instance

/-- Invariant carried through the decoding of a transcript: before the
terminal event the pending table has pairwise-distinct keys and all its
entries satisfy `P`; after it the resolved analysis is sorted by `multipv`,
has pairwise-distinct keys and `P`-entries, and the reported depth is the
head depth of the sorted table (or the requested depth when empty). -/
def DecodeOK (P : AnalysisEntry → Prop) (reqDepth : Int) (st : DecodeState) : Prop :=
  (st.result = none → keysNodup st.analysis ∧ ∀ e ∈ st.analysis, P e) ∧
  (∀ r, st.result = some r →
    List.Sorted byMpv r.analysis ∧ keysNodup r.analysis ∧ (∀ e ∈ r.analysis, P e) ∧
    r.depth = depthFromSorted reqDepth r.analysis)

/-! ### Helper lemmas: the analysis table -/

theorem mem_upsertEntry {l : List AnalysisEntry} {e a : AnalysisEntry}
    (h : a ∈ upsertEntry l e) : a ∈ l ∨ a = e := by
  induction l with
  | nil => simp [upsertEntry] at h; exact Or.inr h
  | cons b rest ih =>
    by_cases hb : b.multipv = e.multipv
    · simp [upsertEntry, hb] at h
      rcases h with h | h
      · exact Or.inr h
      · exact Or.inl (List.mem_cons_of_mem b h)
    · simp [upsertEntry, hb] at h
      rcases h with h | h
      · exact Or.inl (h ▸ List.mem_cons_self b rest)
      · rcases ih h with h2 | h2
        · exact Or.inl (List.mem_cons_of_mem b h2)
        · exact Or.inr h2

theorem keysOf_upsertEntry (l : List AnalysisEntry) (e : AnalysisEntry) :
    keysOf (upsertEntry l e) =
      if e.multipv ∈ keysOf l then keysOf l else keysOf l ++ [e.multipv] := by
  induction l with
  | nil => simp [upsertEntry, keysOf]
  | cons b rest ih =>
    by_cases hb : b.multipv = e.multipv
    · simp [upsertEntry, hb, keysOf, List.mem_cons]
    · have hne : ¬ e.multipv = b.multipv := fun h => hb h.symm
      simp only [upsertEntry, if_neg hb, keysOf, List.map_cons, List.mem_cons]
      simp only [keysOf] at ih
      rw [ih]
      by_cases hmem : e.multipv ∈ rest.map (fun e => e.multipv)
      · simp [hmem, hne]
      · simp [hmem, hne]

theorem keysNodup_upsertEntry {l : List AnalysisEntry} (e : AnalysisEntry)
    (h : keysNodup l) : keysNodup (upsertEntry l e) := by
  unfold keysNodup
  rw [keysOf_upsertEntry]
  by_cases hmem : e.multipv ∈ keysOf l
  · simpa [hmem] using h
  · simp only [if_neg hmem]
    rw [List.nodup_append]
    exact ⟨h, List.nodup_singleton _, by simpa using hmem⟩

theorem collectInfo_ok (P : AnalysisEntry → Prop) :
    ∀ (lines : List (List Char)) (acc : List AnalysisEntry),
      keysNodup acc → (∀ e ∈ acc, P e) →
      (∀ line ∈ lines, optionAllP (parseInfoLine line) P) →
      keysNodup (collectInfo acc lines) ∧ ∀ e ∈ collectInfo acc lines, P e := by
  intro lines
  induction lines with
  | nil => intro acc h1 h2 _; exact ⟨h1, h2⟩
  | cons line rest ih =>
    intro acc h1 h2 h3
    have hline := h3 line (List.mem_cons_self line rest)
    have hrest : ∀ l ∈ rest, optionAllP (parseInfoLine l) P :=
      fun l hl => h3 l (List.mem_cons_of_mem line hl)
    cases hp : parseInfoLine line with
    | none =>
      simpa [collectInfo, hp] using ih acc h1 h2 hrest
    | some e =>
      rw [hp] at hline
      have hP : P e := hline
      have hacc2 : ∀ a ∈ upsertEntry acc e, P a := by
        intro a ha
        rcases mem_upsertEntry ha with h | h
        · exact h2 a h
        · exact h ▸ hP
      simpa [collectInfo, hp] using ih (upsertEntry acc e) (keysNodup_upsertEntry e h1) hacc2 hrest

/-! ### Helper lemmas: sorting -/

theorem sortByMpv_perm (l : List AnalysisEntry) : List.Perm (sortByMpv l) l :=
  List.perm_insertionSort byMpv l

theorem sortByMpv_sorted (l : List AnalysisEntry) : List.Sorted byMpv (sortByMpv l) :=
  List.sorted_insertionSort byMpv l

theorem keysNodup_of_perm {l1 l2 : List AnalysisEntry} (h : List.Perm l1 l2)
    (h2 : keysNodup l2) : keysNodup l1 := by
  unfold keysNodup keysOf at h2 ⊢
  exact ((h.map (fun e => e.multipv)).nodup_iff).mpr h2

theorem head_of_sorted_key_one {l : List AnalysisEntry}
    (hs : List.Sorted byMpv l) (hnd : keysNodup l)
    (hpos : ∀ e ∈ l, 1 ≤ e.multipv) {e : AnalysisEntry}
    (he : e ∈ l) (hk : e.multipv = 1) : l.head? = some e := by
  cases l with
  | nil => cases he
  | cons b t =>
    have hble : b.multipv ≤ e.multipv := by
      rcases List.mem_cons.mp he with h | h
      · rw [h]
      · exact List.rel_of_sorted_cons hs e h
    have hbge : 1 ≤ b.multipv := hpos b (List.mem_cons_self b t)
    have hbk : b.multipv = 1 := le_antisymm (hk ▸ hble) hbge
    rcases List.mem_cons.mp he with h | h
    · rw [h]; rfl
    · exfalso
      have hnd2 : (∀ x ∈ t, ¬x.multipv = b.multipv) ∧
          (List.map (fun e => e.multipv) t).Nodup := by
        simpa [keysNodup, keysOf] using hnd
      exact hnd2.1 e h (by rw [hk, hbk])

/-! ### Helper lemmas: the decoder invariant -/

theorem decodeOK_init (P : AnalysisEntry → Prop) (reqDepth : Int) :
    DecodeOK P reqDepth ⟨[], none⟩ := by
  constructor
  · intro _
    constructor
    · simp [keysNodup, keysOf]
    · intro e he; cases he
  · intro r hr; cases hr

theorem processChunk_ok (P : AnalysisEntry → Prop) (reqDepth : Int)
    (chunk : String) (st : DecodeState)
    (hlines : ∀ line ∈ chunkLines chunk, optionAllP (parseInfoLine line) P)
    (hok : DecodeOK P reqDepth st) :
    DecodeOK P reqDepth (processChunk reqDepth st chunk) := by
  obtain ⟨hnone, hsome⟩ := hok
  cases hres : st.result with
  | some r =>
    simpa [processChunk, hres] using ⟨hnone, hsome⟩
  | none =>
    obtain ⟨h1, h2⟩ := hnone hres
    have hpend := collectInfo_ok P (chunkLines chunk) st.analysis h1 h2 hlines
    cases hbm : (chunkLines chunk).findSome? parseBestmoveLine with
    | none =>
      constructor
      · intro _
        simpa [processChunk, hres, hbm] using hpend
      · intro r hr
        simp [processChunk, hres, hbm] at hr
    | some bm =>
      have hperm := sortByMpv_perm (collectInfo st.analysis (chunkLines chunk))
      constructor
      · intro h
        simp [processChunk, hres, hbm] at h
      · intro r hr
        simp only [processChunk, hres, hbm] at hr
        injection hr with hr
        subst hr
        refine ⟨sortByMpv_sorted _, keysNodup_of_perm hperm hpend.1, ?_, rfl⟩
        intro e he
        exact hpend.2 e (hperm.mem_iff.mp he)

theorem decode_ok_aux (P : AnalysisEntry → Prop) (reqDepth : Int) :
    ∀ (chunks : List String) (st : DecodeState),
      DecodeOK P reqDepth st →
      (∀ chunk ∈ chunks, ∀ line ∈ chunkLines chunk, optionAllP (parseInfoLine line) P) →
      DecodeOK P reqDepth (chunks.foldl (processChunk reqDepth) st) := by
  intro chunks
  induction chunks with
  | nil => intro st h _; exact h
  | cons chunk rest ih =>
    intro st h hall
    have hchunk := hall chunk (List.mem_cons_self chunk rest)
    have hrest : ∀ c ∈ rest, ∀ line ∈ chunkLines c, optionAllP (parseInfoLine line) P :=
      fun c hc => hall c (List.mem_cons_of_mem chunk hc)
    simpa [List.foldl_cons] using
      ih (processChunk reqDepth st chunk) (processChunk_ok P reqDepth chunk st hchunk h) hrest

theorem decode_ok (P : AnalysisEntry → Prop) (reqDepth : Int) (chunks : List String)
    (h : infoLinesSatisfy chunks P) : DecodeOK P reqDepth (decode reqDepth chunks) :=
  decode_ok_aux P reqDepth chunks ⟨[], none⟩ (decodeOK_init P reqDepth) h

theorem analysis_length_le {l : List AnalysisEntry} {m : Nat}
    (hnd : keysNodup l) (hb : ∀ e ∈ l, 1 ≤ e.multipv ∧ e.multipv ≤ m) :
    l.length ≤ m := by
  have hlen : l.length = (keysOf l).length := by simp [keysOf]
  have hsub : ∀ k ∈ keysOf l, k ∈ Finset.Icc 1 m := by
    intro k hk
    rcases List.mem_map.mp hk with ⟨e, he, hke⟩
    have := hb e he
    rw [← hke]
    exact Finset.mem_Icc.mpr this
  have hcard : (keysOf l).toFinset.card = (keysOf l).length :=
    List.toFinset_card_of_nodup hnd
  have hsub2 : (keysOf l).toFinset ⊆ Finset.Icc 1 m := by
    intro k hk
    exact hsub k (List.mem_toFinset.mp hk)
  have := Finset.card_le_card hsub2
  rw [hcard, Nat.card_Icc] at this
  omega

/-! ### Helper lemmas: the pool scan -/

theorem scanOffsets_some {busy : List Bool} {base : Nat} :
    ∀ {offs : List Nat} {idx : Nat}, scanOffsets busy base offs = some idx →
      ∃ pre k suf, offs = pre ++ k :: suf ∧ idx = (base + k) % busy.length ∧
        busy.getD idx true = false ∧
        ∀ j ∈ pre, busy.getD ((base + j) % busy.length) true = true := by
  intro offs
  induction offs with
  | nil => intro idx h; cases h
  | cons i rest ih =>
    intro idx h
    by_cases hb : busy.getD ((base + i) % busy.length) true
    · rw [scanOffsets, if_pos hb] at h
      obtain ⟨pre, k, suf, h1, h2, h3, h4⟩ := ih h
      refine ⟨i :: pre, k, suf, by rw [h1]; rfl, h2, h3, ?_⟩
      intro j hj
      rcases List.mem_cons.mp hj with hj | hj
      · rw [hj]; exact hb
      · exact h4 j hj
    · rw [scanOffsets, if_neg hb] at h
      injection h with h
      refine ⟨[], i, rest, rfl, h.symm, ?_, by intro j hj; cases hj⟩
      rw [← h]
      exact Bool.eq_false_iff.mpr hb

theorem scanOffsets_none {busy : List Bool} {base : Nat} :
    ∀ {offs : List Nat}, scanOffsets busy base offs = none →
      ∀ k ∈ offs, busy.getD ((base + k) % busy.length) true = true := by
  intro offs
  induction offs with
  | nil => intro _ k hk; cases hk
  | cons i rest ih =>
    intro h k hk
    by_cases hb : busy.getD ((base + i) % busy.length) true
    · rw [scanOffsets, if_pos hb] at h
      rcases List.mem_cons.mp hk with hk | hk
      · rw [hk]; exact hb
      · exact ih h k hk
    · rw [scanOffsets, if_neg hb] at h
      cases h

theorem range_decomp {n k : Nat} {pre suf : List Nat}
    (h : List.range n = pre ++ k :: suf) : k = pre.length ∧ pre = List.range k := by
  have hlen : n = pre.length + (k :: suf).length := by
    have := congrArg List.length h
    simpa [List.length_append] using this
  have hplt : pre.length < n := by simp at hlen; omega
  have hget : (List.range n)[pre.length]? = some pre.length := by
    simp [List.getElem?_range hplt]
  have hget2 : (pre ++ k :: suf)[pre.length]? = some k := by
    rw [List.getElem?_append_right (le_refl pre.length)]
    simp
  rw [h, hget2] at hget
  injection hget with hget
  refine ⟨hget, ?_⟩
  have hpre : pre = List.range (min pre.length n) := by
    have := congrArg (fun l => List.take pre.length l) h
    simpa [List.take_left, List.take_range] using this.symm
  rw [hpre, hget]
  congr 1
  omega

theorem mod_cycle {n c i : Nat} (hc : c < n) (hi : i < n) :
    (c + (i + n - c) % n) % n = i := by
  rw [Nat.add_mod, Nat.mod_mod_of_dvd, ← Nat.add_mod]
  · have harith : c + (i + n - c) = i + n := by omega
    rw [harith, Nat.add_mod_right, Nat.mod_eq_of_lt hi]
  · exact dvd_refl n

/-! ### Helper lemmas: the request handler -/

theorem handleBestmove_writes (req : Request) (st : PoolState)
    (rndThink rndErr rndPick : ℚ) (chunks : List String)
    (h : fenFalsy req = false) :
    ∃ rest, (handleBestmove req st rndThink rndErr rndPick chunks).writes =
      dispatchCommands (reqSkillOf req) (req.fen.getD "")
        (actualDepthOf (reqSkillOf req) (reqDepthOf req))
        (actualMultiPvOf (reqMultiPvOf req))
        (actualTimeLimitOf req.timeLimit
          (getThinkingTime (reqSkillOf req)
            (estimatePositionComplexity (req.fen.getD "")) rndThink)) ++ rest := by
  unfold handleBestmove
  rw [if_neg (by simp [h])]
  cases hd : (decode (actualDepthOf (reqSkillOf req) (reqDepthOf req)) chunks).result with
  | none => exact ⟨[], by simp [hd]⟩
  | some r => exact ⟨["ucinewgame\n", "isready\n"], by simp [hd]⟩

theorem expandDigitsAux_all_digits :
    ∀ (l run : List Char), l.all Char.isDigit →
      expandDigitsAux run l = List.replicate (digitsToNat (run ++ l)) ' ' := by
  intro l
  induction l with
  | nil => intro run _; simp [expandDigitsAux]
  | cons c rest ih =>
    intro run h
    simp only [List.all_cons, Bool.and_eq_true] at h
    rw [expandDigitsAux, if_pos h.1, ih (run ++ [c]) h.2]
    congr 1
    simp

theorem expandDigits_digit_run (l : List Char) (h : l.all Char.isDigit) :
    expandDigits l = List.replicate (digitsToNat l) ' ' := by
  have h2 := expandDigitsAux_all_digits l [] h
  simpa [expandDigits] using h2

theorem config_depth_bounds (s : Int) :
    1 ≤ (getConfigForSkill s).minDepth ∧
    (getConfigForSkill s).minDepth ≤ (getConfigForSkill s).maxDepth ∧
    (getConfigForSkill s).maxDepth ≤ maxDepthLimit := by
  unfold getConfigForSkill
  split_ifs <;> decide

/-! ### Claim theorems -/

set_option maxRecDepth 100000

/-- C5: `getConfigForSkill` is a pure total bucket lookup with exact tier
boundaries: `skillLevel ≤ 8` is beginner, `9..15` intermediate, `16..22`
advanced, `23..28` expert, `≥ 29` master. -/
theorem getConfigForSkill_tiers (s : Int) :
    (s ≤ 8 → getConfigForSkill s = beginnerConfig) ∧
    (9 ≤ s → s ≤ 15 → getConfigForSkill s = intermediateConfig) ∧
    (16 ≤ s → s ≤ 22 → getConfigForSkill s = advancedConfig) ∧
    (23 ≤ s → s ≤ 28 → getConfigForSkill s = expertConfig) ∧
    (29 ≤ s → getConfigForSkill s = masterConfig) := by
  unfold getConfigForSkill
  refine ⟨?_, ?_, ?_, ?_, ?_⟩ <;> intros <;> split_ifs <;> first | rfl | omega

/-- Witness for C5 at the boundary levels 8, 9 and 29. -/
theorem getConfigForSkill_tiers_witness :
    getConfigForSkill 8 = beginnerConfig ∧
    getConfigForSkill 9 = intermediateConfig ∧
    getConfigForSkill 29 = masterConfig :=
  ⟨(getConfigForSkill_tiers 8).1 (by decide),
   (getConfigForSkill_tiers 9).2.1 (by decide) (by decide),
   (getConfigForSkill_tiers 29).2.2.2.2 (by decide)⟩

/-- C2 counterexample: at `skillLevel = 20` a requested depth of 1 becomes
20, not `clamp(1, [1, MAX_DEPTH]) = 1`; a requested multiPv of 1 becomes 3,
not `clamp(1, [1, 5]) = 1`; a supplied timeLimit of -5 stays -5, outside
`[0, MAX_TIME_LIMIT]`. -/
theorem clamp_claim_counterexample :
    actualDepthOf 20 1 = 20 ∧ ¬actualDepthOf 20 1 = max 1 (min 1 maxDepthLimit) ∧
    actualMultiPvOf 1 = 3 ∧ ¬actualMultiPvOf 1 = max 1 (min 1 5) ∧
    actualTimeLimitOf (some (-5)) 1000 = -5 ∧ ¬0 ≤ actualTimeLimitOf (some (-5)) 1000 := by
  decide

/-- C2 (amended): before any engine command is sent, the handler clamps the
requested depth into the skill tier's `[minDepth, maxDepth]` (hence into
`[1, MAX_DEPTH]`), the requested multiPv into `[3, 5]` (hence into
`[1, 5]`), and caps a supplied nonzero timeLimit at `MAX_TIME_LIMIT` from
above only, a missing or zero timeLimit becoming the sampled thinking
time; every engine command is then built from the clamped values. -/
theorem clamp_effective_ranges (req : Request) (st : PoolState)
    (rndThink rndErr rndPick : ℚ) (chunks : List String)
    (h : fenFalsy req = false) :
    ((getConfigForSkill (reqSkillOf req)).minDepth ≤ actualDepthOf (reqSkillOf req) (reqDepthOf req) ∧
     actualDepthOf (reqSkillOf req) (reqDepthOf req) ≤ (getConfigForSkill (reqSkillOf req)).maxDepth ∧
     1 ≤ actualDepthOf (reqSkillOf req) (reqDepthOf req) ∧
     actualDepthOf (reqSkillOf req) (reqDepthOf req) ≤ maxDepthLimit) ∧
    (3 ≤ actualMultiPvOf (reqMultiPvOf req) ∧ actualMultiPvOf (reqMultiPvOf req) ≤ 5) ∧
    (∀ t : Int, req.timeLimit = some t → ¬t = 0 →
      actualTimeLimitOf req.timeLimit
          (getThinkingTime (reqSkillOf req)
            (estimatePositionComplexity (req.fen.getD "")) rndThink) =
        min t maxTimeLimitMs) ∧
    ((req.timeLimit = none ∨ req.timeLimit = some 0) →
      actualTimeLimitOf req.timeLimit
          (getThinkingTime (reqSkillOf req)
            (estimatePositionComplexity (req.fen.getD "")) rndThink) =
        getThinkingTime (reqSkillOf req)
          (estimatePositionComplexity (req.fen.getD "")) rndThink) ∧
    (∃ rest, (handleBestmove req st rndThink rndErr rndPick chunks).writes =
      dispatchCommands (reqSkillOf req) (req.fen.getD "")
        (actualDepthOf (reqSkillOf req) (reqDepthOf req))
        (actualMultiPvOf (reqMultiPvOf req))
        (actualTimeLimitOf req.timeLimit
          (getThinkingTime (reqSkillOf req)
            (estimatePositionComplexity (req.fen.getD "")) rndThink)) ++ rest) := by
  have hcfg := config_depth_bounds (reqSkillOf req)
  refine ⟨?_, ?_, ?_, ?_, handleBestmove_writes req st rndThink rndErr rndPick chunks h⟩
  · unfold actualDepthOf
    omega
  · unfold actualMultiPvOf
    omega
  · intro t ht hz
    rw [ht]
    simp [actualTimeLimitOf, hz]
  · intro ht
    rcases ht with ht | ht <;> rw [ht] <;> simp [actualTimeLimitOf]

/-- Witness for C2 (amended) at a concrete request. -/
theorem clamp_effective_ranges_witness :
    3 ≤ actualMultiPvOf (reqMultiPvOf ⟨some "fen", some 1, some 1, some 40000, none⟩) ∧
    actualTimeLimitOf (some (40000 : Int))
        (getThinkingTime (reqSkillOf ⟨some "fen", some 1, some 1, some 40000, none⟩)
          (estimatePositionComplexity "fen") 0) =
      min 40000 maxTimeLimitMs := by
  have h := clamp_effective_ranges ⟨some "fen", some 1, some 1, some 40000, none⟩
    ⟨[false], 0⟩ 0 0 0 [] (by decide)
  exact ⟨h.2.1.1, h.2.2.1 40000 rfl (by decide)⟩

/-- C10: a supplied timeLimit of 0 is treated exactly like an absent one
(the effective limit is the sampled thinking time for the tier and the
position's complexity); a nonzero supplied timeLimit is capped at
`MAX_TIME_LIMIT` from above and never raised. -/
theorem timeLimit_zero_is_absent (skillLevel : Int) (fen : String) (rnd : ℚ)
    (t : Int) (ht : ¬t = 0) :
    actualTimeLimitOf none (getThinkingTime skillLevel (estimatePositionComplexity fen) rnd) =
      getThinkingTime skillLevel (estimatePositionComplexity fen) rnd ∧
    actualTimeLimitOf (some 0) (getThinkingTime skillLevel (estimatePositionComplexity fen) rnd) =
      getThinkingTime skillLevel (estimatePositionComplexity fen) rnd ∧
    actualTimeLimitOf (some t) (getThinkingTime skillLevel (estimatePositionComplexity fen) rnd) =
      min t maxTimeLimitMs ∧
    actualTimeLimitOf (some t) (getThinkingTime skillLevel (estimatePositionComplexity fen) rnd) ≤ t := by
  refine ⟨rfl, by simp [actualTimeLimitOf], by simp [actualTimeLimitOf, ht], ?_⟩
  simp only [actualTimeLimitOf, if_pos ht]
  exact min_le_left t maxTimeLimitMs

/-- Witness for C10 at a concrete nonzero timeLimit. -/
theorem timeLimit_zero_is_absent_witness :
    actualTimeLimitOf (some 40000)
        (getThinkingTime 20 (estimatePositionComplexity "fen") 0) =
      min 40000 maxTimeLimitMs ∧
    actualTimeLimitOf (some 0) (getThinkingTime 20 (estimatePositionComplexity "fen") 0) =
      getThinkingTime 20 (estimatePositionComplexity "fen") 0 :=
  ⟨(timeLimit_zero_is_absent 20 "fen" 0 40000 (by decide)).2.2.1,
   (timeLimit_zero_is_absent 20 "fen" 0 40000 (by decide)).2.1⟩

/-- C8 (amended): on every runtime string-length cap and every input
string, the complexity estimate lies in `[0, 1]`; whenever the gap-padded
placement field fits under the cap it equals
`min(1, pieceCount/32 * 0.7 + uniquePieceCount/12 * 0.3)` where
`pieceCount` is the end-trimmed length of the padded field (interior gap
spaces count) and `uniquePieceCount` counts distinct characters of the
untrimmed padded field (the space counts as a symbol); when the expansion
would exceed the cap, `' '.repeat` throws `RangeError` and the caught
error yields 0.5.  The deployed function uses V8's cap. -/
theorem complexity_formula (cap : Nat) (fen : String) :
    (0 ≤ estimateComplexityWithCap cap fen ∧ estimateComplexityWithCap cap fen ≤ 1) ∧
    ((expandDigits (boardField fen)).length ≤ cap →
      estimateComplexityWithCap cap fen =
        min 1 ((pieceCountOf fen : ℚ) / 32 * (7/10) + (uniquePieceCountOf fen : ℚ) / 12 * (3/10))) ∧
    (¬(expandDigits (boardField fen)).length ≤ cap →
      estimateComplexityWithCap cap fen = 1/2) ∧
    estimatePositionComplexity fen = estimateComplexityWithCap stringLengthCap fen := by
  refine ⟨?_, ?_, ?_, rfl⟩
  · unfold estimateComplexityWithCap
    by_cases hlen : (expandDigits (boardField fen)).length ≤ cap
    · rw [if_pos hlen]
      have h1 : (0:ℚ) ≤ (pieceCountOf fen : ℚ) / 32 * (7/10) +
          (uniquePieceCountOf fen : ℚ) / 12 * (3/10) := by positivity
      exact ⟨le_min (by norm_num) h1, min_le_left _ _⟩
    · rw [if_neg hlen]
      norm_num
  · intro hlen
    unfold estimateComplexityWithCap
    rw [if_pos hlen]
  · intro hlen
    unfold estimateComplexityWithCap
    rw [if_neg hlen]

/-- Witness for C8 (amended): the formula branch at V8's cap on the sparse
K-vs-k position, and the overflow branch both at a small cap (`99` spaces
against cap 10) and on the deployed function itself, where the digit run
`9999999999` asks for about 10^10 characters and overflows V8's cap. -/
theorem complexity_formula_witness :
    estimateComplexityWithCap stringLengthCap "8/8/8/8/8/8/8/K6k w - - 0 1" =
      min 1 ((pieceCountOf "8/8/8/8/8/8/8/K6k w - - 0 1" : ℚ) / 32 * (7/10) +
        (uniquePieceCountOf "8/8/8/8/8/8/8/K6k w - - 0 1" : ℚ) / 12 * (3/10)) ∧
    estimateComplexityWithCap 10 "99" = 1/2 ∧
    estimatePositionComplexity "9999999999" = 1/2 := by
  refine ⟨(complexity_formula stringLengthCap "8/8/8/8/8/8/8/K6k w - - 0 1").2.1 (by decide),
    (complexity_formula 10 "99").2.2.1 (by decide), ?_⟩
  have hbf : boardField "9999999999" = "9999999999".data := by decide
  have hlen : (expandDigits (boardField "9999999999")).length = 9999999999 := by
    rw [hbf, expandDigits_digit_run "9999999999".data (by decide)]
    rw [List.length_replicate]
    decide
  have h := (complexity_formula stringLengthCap "9999999999").2.2.1
    (by rw [hlen]; decide)
  rw [(complexity_formula stringLengthCap "9999999999").2.2.2]
  exact h

/-- C8 counterexample: on `8/8/8/8/8/8/8/K6k w - - 0 1` the code computes
1/4 (8 trimmed characters including 6 interior gap spaces, 3 distinct
symbols including the space), while the claimed formula over occupied
squares and distinct piece symbols gives 3/32. -/
theorem complexity_spec_mismatch :
    estimatePositionComplexity "8/8/8/8/8/8/8/K6k w - - 0 1" = 1/4 ∧
    specComplexity "8/8/8/8/8/8/8/K6k w - - 0 1" = 3/32 ∧
    ¬(1/4 : ℚ) = 3/32 := by
  have h1 : pieceCountOf "8/8/8/8/8/8/8/K6k w - - 0 1" = 8 := by decide
  have h2 : uniquePieceCountOf "8/8/8/8/8/8/8/K6k w - - 0 1" = 3 := by decide
  have h3 : specOccupiedSquares "8/8/8/8/8/8/8/K6k w - - 0 1" = 2 := by decide
  have h4 : specDistinctPieces "8/8/8/8/8/8/8/K6k w - - 0 1" = 2 := by decide
  refine ⟨?_, ?_, by norm_num⟩
  · unfold estimatePositionComplexity estimateComplexityWithCap
    rw [if_pos (by decide), h1, h2, min_eq_right (by norm_num)]
    norm_num
  · unfold specComplexity
    rw [h3, h4, min_eq_right (by norm_num)]
    norm_num

/-- C7: a request with a missing FEN is rejected with a validation error
before any instance is acquired: the pool state (busy flags and cursor) is
unchanged and nothing is written to any engine. -/
theorem missing_fen_rejected (req : Request) (st : PoolState)
    (rndThink rndErr rndPick : ℚ) (chunks : List String)
    (h : req.fen = none) :
    handleBestmove req st rndThink rndErr rndPick chunks =
      ⟨.badRequest, st, []⟩ := by
  simp [handleBestmove, fenFalsy, h]

/-- Witness for C7 at a concrete request and pool. -/
theorem missing_fen_rejected_witness :
    handleBestmove ⟨none, some 10, none, none, none⟩ ⟨[false, true], 1⟩ 0 0 0
        ["bestmove e2e4\n"] =
      ⟨.badRequest, ⟨[false, true], 1⟩, []⟩ :=
  missing_fen_rejected ⟨none, some 10, none, none, none⟩ ⟨[false, true], 1⟩ 0 0 0
    ["bestmove e2e4\n"] rfl

/-- C1: the streaming decoder does not tolerate a line boundary falling
across chunk boundaries.  The transcript
`info … multipv 1 … pv e2e4 e7e5\nbestmove e2e4\n` decodes to a BestMove
result when fed as one chunk, but when the same transcript arrives split
inside the word `bestmove` the terminal line is never matched and the
request never resolves: the code matches each chunk in isolation with no
partial-line buffer. -/
theorem chunked_decode_differs :
    ((decode 10
        ["info depth 10 seldepth 12 multipv 1 score cp 25 pv e2e4 e7e5\nbestmove e2e4\n"]).result.map
      (fun r => (r.bestMove, r.depth, r.analysis.length))) = some (⟨"e2e4", none⟩, 10, 1) ∧
    (decode 10
        ["info depth 10 seldepth 12 multipv 1 score cp 25 pv e2e4 e7e5\nbestm",
         "ove e2e4\n"]).result = none := by
  decide

/-- C3 counterexample: for a requested multiPv of 1 the engine is
configured with an effective MultiPV of 3, and a conforming transcript
(all info lines with `multipv ≤ 3`) yields an analysis of length 3,
exceeding the requested multiPv. -/
theorem decoded_length_exceeds_requested :
    infoLinesSatisfy
      ["info depth 10 seldepth 12 multipv 1 score cp 25 pv e2e4\ninfo depth 10 seldepth 12 multipv 2 score cp 20 pv d2d4\ninfo depth 10 seldepth 12 multipv 3 score cp 15 pv g1f3\nbestmove e2e4\n"]
      (fun e => 1 ≤ e.multipv ∧ (e.multipv : Int) ≤ actualMultiPvOf 1) ∧
    ((decode 10
        ["info depth 10 seldepth 12 multipv 1 score cp 25 pv e2e4\ninfo depth 10 seldepth 12 multipv 2 score cp 20 pv d2d4\ninfo depth 10 seldepth 12 multipv 3 score cp 15 pv g1f3\nbestmove e2e4\n"]).result.map
      (fun r => r.analysis.length)) = some 3 ∧
    ¬((3 : Int) ≤ 1) := by
  decide

/-- C3 (amended): for every request and every transcript whose info lines
carry `multipv` indices in `[1, actualMultiPv]` (the MultiPV count the
engine was configured with, `min(max(3, multiPv), 5)`), a decoded result's
analysis is sorted non-decreasing by `multipv`, never contains two entries
with the same `multipv` index, and has length at most that effective
multiPv. -/
theorem decoded_analysis_invariants (multiPv reqDepth : Int) (chunks : List String)
    (hm : infoLinesSatisfy chunks
      (fun e => 1 ≤ e.multipv ∧ (e.multipv : Int) ≤ actualMultiPvOf multiPv))
    (r : FinalResult) (hr : (decode reqDepth chunks).result = some r) :
    List.Sorted byMpv r.analysis ∧ keysNodup r.analysis ∧
    (r.analysis.length : Int) ≤ actualMultiPvOf multiPv := by
  have hOK := decode_ok _ reqDepth chunks hm
  obtain ⟨hs, hnd, hP, _⟩ := hOK.2 r hr
  refine ⟨hs, hnd, ?_⟩
  have hm3 : 3 ≤ actualMultiPvOf multiPv ∧ actualMultiPvOf multiPv ≤ 5 := by
    unfold actualMultiPvOf; omega
  have hble : ∀ e ∈ r.analysis, 1 ≤ e.multipv ∧ e.multipv ≤ (actualMultiPvOf multiPv).toNat := by
    intro e he
    have := hP e he
    omega
  have := analysis_length_le hnd hble
  omega

/-- Witness for C3 (amended) at a concrete two-line transcript. -/
theorem decoded_analysis_invariants_witness :
    List.Sorted byMpv
      ([⟨10, 1, "cp", some 25, ["e2e4"]⟩, ⟨10, 2, "cp", some 20, ["d2d4"]⟩] : List AnalysisEntry) ∧
    keysNodup
      ([⟨10, 1, "cp", some 25, ["e2e4"]⟩, ⟨10, 2, "cp", some 20, ["d2d4"]⟩] : List AnalysisEntry) ∧
    ((([⟨10, 1, "cp", some 25, ["e2e4"]⟩,
        ⟨10, 2, "cp", some 20, ["d2d4"]⟩] : List AnalysisEntry).length : Int) ≤
      actualMultiPvOf 1) :=
  decoded_analysis_invariants 1 10
    ["info depth 10 seldepth 12 multipv 1 score cp 25 pv e2e4\ninfo depth 10 seldepth 12 multipv 2 score cp 20 pv d2d4\nbestmove e2e4\n"]
    (by decide)
    ⟨⟨"e2e4", none⟩, [⟨10, 1, "cp", some 25, ["e2e4"]⟩, ⟨10, 2, "cp", some 20, ["d2d4"]⟩], 10⟩
    (by decide)

/-- C6: for every requested depth, a transcript with a terminal bestmove
line and no info lines decodes to a result whose reported depth is the
requested depth (and an empty analysis); and whenever the decoded analysis
contains the `multipv = 1` line, the reported depth is that line's depth
(all info lines of a conforming transcript carry `multipv ≥ 1`). -/
theorem decoded_depth_roundtrip (reqDepth : Int) (chunks : List String)
    (hpos : infoLinesSatisfy chunks (fun e => 1 ≤ e.multipv))
    (r : FinalResult) (hr : (decode reqDepth chunks).result = some r) :
    (infoLinesSatisfy chunks (fun _ => False) →
      r.analysis = [] ∧ r.depth = reqDepth) ∧
    (∀ e ∈ r.analysis, e.multipv = 1 → r.depth = (e.depth : Int)) := by
  have hOK := decode_ok (fun e => 1 ≤ e.multipv) reqDepth chunks hpos
  obtain ⟨hs, hnd, hP, hdep⟩ := hOK.2 r hr
  constructor
  · intro hnone
    have hOK2 := decode_ok (fun _ => False) reqDepth chunks hnone
    obtain ⟨_, _, hFalse, hdep2⟩ := hOK2.2 r hr
    have hempty : r.analysis = [] :=
      List.eq_nil_iff_forall_not_mem.mpr (fun e he => hFalse e he)
    refine ⟨hempty, ?_⟩
    rw [hdep2, hempty]
    rfl
  · intro e he hk
    have hhead := head_of_sorted_key_one hs hnd hP he hk
    rw [hdep]
    unfold depthFromSorted
    rw [hhead]

/-- Witness for C6: the fallback path at requested depth 10, and the
info path where the `multipv = 1` line carries depth 7. -/
theorem decoded_depth_roundtrip_witness :
    (⟨⟨"e2e4", none⟩, [], 10⟩ : FinalResult).depth = 10 ∧
    (⟨⟨"a2a3", none⟩, [⟨7, 1, "cp", some 10, ["a2a3"]⟩], 7⟩ : FinalResult).depth =
      ((⟨7, 1, "cp", some 10, ["a2a3"]⟩ : AnalysisEntry).depth : Int) := by
  constructor
  · exact ((decoded_depth_roundtrip 10 ["bestmove e2e4\n"] (by decide)
      ⟨⟨"e2e4", none⟩, [], 10⟩ (by decide)).1 (by decide)).2
  · exact (decoded_depth_roundtrip 10
      ["info depth 7 seldepth 9 multipv 1 score cp 10 pv a2a3\nbestmove a2a3\n"] (by decide)
      ⟨⟨"a2a3", none⟩, [⟨7, 1, "cp", some 10, ["a2a3"]⟩], 7⟩ (by decide)).2
      ⟨7, 1, "cp", some 10, ["a2a3"]⟩ (by decide) rfl

/-- C4: `acquire` is total on a nonempty pool: it returns the first
instance with `busy = false` in scan order from the rotating cursor (there
is a scan offset `k` before which every slot is busy), or the instance at
the cursor itself when every instance is busy; in both cases it marks the
returned instance busy and advances the cursor past it — it never blocks
and never fails. -/
theorem acquire_first_free (st : PoolState) (hn : 0 < st.busy.length)
    (hc : st.cursor < st.busy.length) :
    (acquire st).1 < st.busy.length ∧
    (acquire st).2.busy = st.busy.set (acquire st).1 true ∧
    (acquire st).2.cursor = ((acquire st).1 + 1) % st.busy.length ∧
    ((st.busy.getD (acquire st).1 true = false ∧
      ∃ k, k < st.busy.length ∧ (acquire st).1 = (st.cursor + k) % st.busy.length ∧
        ∀ j, j < k → st.busy.getD ((st.cursor + j) % st.busy.length) true = true) ∨
     ((∀ i, i < st.busy.length → st.busy.getD i true = true) ∧
      (acquire st).1 = st.cursor)) := by
  cases hf : firstFreeIdx st.busy st.cursor with
  | some idx =>
    have hf2 : scanOffsets st.busy st.cursor (List.range st.busy.length) = some idx := hf
    obtain ⟨pre, k, suf, hofs, hidx, hfree, hpre⟩ := scanOffsets_some hf2
    obtain ⟨hk, hprerange⟩ := range_decomp hofs
    have hkn : k < st.busy.length := by
      have := congrArg List.length hofs
      simp [List.length_append] at this
      omega
    simp only [acquire, hf]
    refine ⟨?_, trivial, trivial, Or.inl ⟨hfree, k, hkn, hidx, ?_⟩⟩
    · rw [hidx]
      exact Nat.mod_lt _ hn
    · intro j hj
      exact hpre j (by rw [hprerange]; exact List.mem_range.mpr hj)
  | none =>
    have hf2 : scanOffsets st.busy st.cursor (List.range st.busy.length) = none := hf
    have hall := scanOffsets_none hf2
    simp only [acquire, hf]
    refine ⟨hc, trivial, trivial, Or.inr ⟨?_, trivial⟩⟩
    intro i hi
    have hk := hall ((i + st.busy.length - st.cursor) % st.busy.length)
      (List.mem_range.mpr (Nat.mod_lt _ hn))
    rwa [mod_cycle hc hi] at hk

/-- Witness for C4 at a concrete pool with a busy slot before a free one. -/
theorem acquire_first_free_witness :
    (acquire ⟨[true, false], 0⟩).1 < ([true, false] : List Bool).length :=
  (acquire_first_free ⟨[true, false], 0⟩ (by decide) (by decide)).1

/-- C9: for every handled request the dispatcher writes the tier's engine
skill value and the `UCI_LimitStrength` toggle — `true` exactly when
`skillLevel < 30` — before the analysis commands; the pool handshake had
configured `UCI_LimitStrength false`, and the default `skillLevel` of 20
turns it back on. -/
theorem skill_commands_before_analysis (req : Request) (st : PoolState)
    (rndThink rndErr rndPick : ℚ) (chunks : List String)
    (h : fenFalsy req = false) :
    (∃ rest, (handleBestmove req st rndThink rndErr rndPick chunks).writes =
      skillCmd (reqSkillOf req) :: limitStrengthCmd (reqSkillOf req) ::
        (encodeAnalysisRequest (req.fen.getD "")
          (actualDepthOf (reqSkillOf req) (reqDepthOf req))
          (actualMultiPvOf (reqMultiPvOf req))
          (actualTimeLimitOf req.timeLimit
            (getThinkingTime (reqSkillOf req)
              (estimatePositionComplexity (req.fen.getD "")) rndThink)) ++ rest)) ∧
    (∀ s : Int, limitStrengthCmd s = "setoption name UCI_LimitStrength value true\n" ↔ s < 30) ∧
    (∀ s : Int, skillCmd s =
      "setoption name Skill Level value " ++ toString (getConfigForSkill s).skillLevel ++ "\n") ∧
    "setoption name UCI_LimitStrength value false\n" ∈ handshakeCommands ∧
    (∀ r : Request, r.skillLevel = none →
      limitStrengthCmd (reqSkillOf r) = "setoption name UCI_LimitStrength value true\n") := by
  refine ⟨?_, ?_, fun s => rfl, by decide, ?_⟩
  · obtain ⟨rest, hw⟩ := handleBestmove_writes req st rndThink rndErr rndPick chunks h
    exact ⟨rest, hw⟩
  · intro s
    unfold limitStrengthCmd
    by_cases hs : s < 30
    · rw [if_pos hs]
      exact iff_of_true rfl hs
    · rw [if_neg hs]
      exact iff_of_false (by decide) hs
  · intro r hr
    have h20 : reqSkillOf r = 20 := by simp [reqSkillOf, hr]
    rw [h20]
    decide

/-- Witness for C9 at a concrete request with the default skill level. -/
theorem skill_commands_before_analysis_witness :
    limitStrengthCmd 20 = "setoption name UCI_LimitStrength value true\n" ∧
    "setoption name UCI_LimitStrength value false\n" ∈ handshakeCommands := by
  have h := skill_commands_before_analysis ⟨some "fen", none, none, none, none⟩
    ⟨[false], 0⟩ 0 0 0 [] (by decide)
  exact ⟨(h.2.1 20).mpr (by decide), h.2.2.2.1⟩

end StockfishAPI
